import Mathlib

/-!
Shallow embedding of the Polaris backend (pitch-deck analysis API) and a
verification of the specification claims about it.

The embedding follows the Python sources file by file:
  * `src/api/config.py`       → `Settings`, `settings`
  * `src/api/validators.py`   → `validate_pitch_content`, `validate_file`
  * `src/api/pdf_util.py`     → `extract_text_from_pdf`
  * `src/api/pitch_analyzer.py` → `calculate_content_stats`
  * `src/api/investor_service.py` → `get_investor_by_id`, `update_investor`,
    `delete_investor`, `get_investors_pagination`

Text is modelled as `List Char`; Python `str` library functions used by the
code (`str.strip`, `str.split`, `str.lower`, `str.endswith`) are embedded as
executable Lean functions with the documented CPython semantics.  Behaviour of
external libraries (PDF readers, the `magic` MIME sniffer, the MongoDB driver)
is a parameter of the embedded functions, so a theorem can quantify over every
possible behaviour of the library.
-/

/-! ## Python string primitives -/

/-- Python whitespace (`str.split()` / `str.strip()` default set):
space, tab, newline, carriage return, vertical tab, form feed. -/
def pyIsSpace (c : Char) : Bool :=
  c = ' ' || c = '\t' || c = '\n' || c = '\r' || c = '\x0b' || c = '\x0c'

/-- Python `str.strip()`: remove leading and trailing whitespace. -/
def pyStrip (l : List Char) : List Char :=
  ((l.dropWhile pyIsSpace).reverse.dropWhile pyIsSpace).reverse

/-- Fuel-indexed worker for `pySplitWs`; the fuel is an upper bound on the
length of the list, so the `0` case is never reached from `pySplitWs`. -/
def pySplitWsAux (sep : Char → Bool) : Nat → List Char → List (List Char)
  | _, [] => []
  | 0, l => [l]
  | f + 1, c :: rest =>
    if sep c then pySplitWsAux sep f rest
    else (c :: rest.takeWhile (fun d => !sep d)) ::
      pySplitWsAux sep f (rest.dropWhile (fun d => !sep d))

/-- Python `str.split()` with no argument: split on runs of whitespace and
discard empty fields. -/
def pySplitWs (l : List Char) : List (List Char) :=
  pySplitWsAux pyIsSpace l.length l

/-- Python `str.split(sep)` for a single-character separator: split at every
occurrence of `sep`, keeping empty fields. -/
def pySplitOn (sep : Char) : List Char → List (List Char)
  | [] => [[]]
  | c :: rest =>
    if c = sep then [] :: pySplitOn sep rest
    else
      match pySplitOn sep rest with
      | [] => [[c]]
      | w :: ws => (c :: w) :: ws

/-- Fuel-indexed worker for `pySplitSeq`. -/
def pySplitSeqAux (sep : List Char) : Nat → List Char → List (List Char)
  | _, [] => [[]]
  | 0, l => [l]
  | f + 1, c :: rest =>
    if sep ≠ [] ∧ sep.isPrefixOf (c :: rest) then
      [] :: pySplitSeqAux sep f ((c :: rest).drop sep.length)
    else
      match pySplitSeqAux sep f rest with
      | [] => [[c]]
      | w :: ws => (c :: w) :: ws

/-- Python `str.split(sep)` for a multi-character separator (used with the
paragraph separator `"\n\n"`): split at each non-overlapping occurrence,
left to right, keeping empty fields. -/
def pySplitSeq (sep l : List Char) : List (List Char) :=
  pySplitSeqAux sep l.length l

/-- Python `str.lower()` restricted to ASCII, which is all the code applies it
to (filenames). -/
def pyLower (l : List Char) : List Char :=
  l.map Char.toLower

/-- Python `str.endswith(suffix)`. -/
def pyEndsWith (l suf : List Char) : Bool :=
  suf.isSuffixOf l

/-! ## `src/api/config.py` — `Settings` -/

/-- The settings fields the verified code reads (`config.py`, lines 10–14).
Note the field is named `allowed_file_type` (singular), exactly as in
`config.py` line 14; `validators.py` line 44 accesses a *different* attribute
name, see `validate_file` below. -/
structure Settings where
  min_pitch_length : Nat
  max_pitch_length : Nat
  max_file_size : Nat
  allowed_file_type : List String
deriving Repr, DecidableEq

/-- The default settings instance (`config.py` line 26 with the default field
values of lines 10–14). -/
def settings : Settings :=
  { min_pitch_length := 90
    max_pitch_length := 90000
    max_file_size := 10 * 1024 * 1024
    allowed_file_type := ["application/pdf"] }

/-! ## `src/api/validators.py` -/

/-- One character's image under Python `html.escape(s)` (quote=True):
CPython replaces `&` first, then `<`, `>`, `"`, `'`; since none of the
replacement strings contains a character replaced by a later step except the
`&` each replacement itself introduces, the sequential replaces equal this
single pass. -/
def escChar (c : Char) : List Char :=
  if c = '&' then "&amp;".data
  else if c = '<' then "&lt;".data
  else if c = '>' then "&gt;".data
  else if c = '"' then "&quot;".data
  else if c = '\'' then "&#x27;".data
  else [c]

/-- Python `html.escape(s)` (with the default `quote=True`). -/
def html_escape : List Char → List Char
  | [] => []
  | c :: rest => escChar c ++ html_escape rest

/-- Scan to the first `>`, returning the remainder after it (the html5lib
tokenizer consuming a tag), or `none` if the input ends inside the tag. -/
def dropThroughGt : List Char → Option (List Char)
  | [] => none
  | '>' :: rest => some rest
  | _ :: rest => dropThroughGt rest

/-- After a `<`, html5lib starts a tag when the next character is an ASCII
letter or `/` (end tag); otherwise the `<` is literal text. -/
def tagStart : List Char → Bool
  | [] => false
  | c :: _ => c.isAlpha || c = '/'

/-- Fuel-indexed worker for `bleach_clean`; fuel is an upper bound on the
length of the list, so the `0` case is never reached from `bleach_clean`. -/
def bleachCleanAux : Nat → List Char → List Char
  | _, [] => []
  | 0, _ => []
  | f + 1, '<' :: rest =>
    if tagStart rest then
      match dropThroughGt rest with
      | some rest' => bleachCleanAux f rest'
      | none => []
    else "&lt;".data ++ bleachCleanAux f rest
  | f + 1, '&' :: rest => "&amp;".data ++ bleachCleanAux f rest
  | f + 1, '>' :: rest => "&gt;".data ++ bleachCleanAux f rest
  | f + 1, c :: rest => c :: bleachCleanAux f rest

/-- Model of `bleach.clean(s, tags=[], strip=True)` on inputs without
pre-existing character entities: tags (`<` followed by a letter or `/`, up to
the closing `>`) are stripped; a stray `<`, `>` or `&` is escaped to its
entity.  This is the behaviour the code relies on for plain pitch text. -/
def bleach_clean (l : List Char) : List Char :=
  bleachCleanAux l.length l

/-- Embedding of `InputValidator.validate_pitch_content` (`validators.py` lines 11–28).
`Except.error` is a raised `ValidationError` with the given message. -/
def validate_pitch_content (s : Settings) (pitch : List Char) :
    Except String (List Char) :=
  -- `if not pitch or not pitch.strip():`
  if pitch = [] ∨ pyStrip pitch = [] then
    .error "Pitch content cannot be empty"
  else
    -- `pitch = pitch.strip()`
    let pitch := pyStrip pitch
    if pitch.length < s.min_pitch_length then
      .error "Pitch content too short"
    else if s.max_pitch_length < pitch.length then
      .error "Pitch content too long"
    else
      -- `sanitized = bleach.clean(pitch, tags=[], strip=True)`
      -- `sanitized = escape(sanitized)`
      .ok (html_escape (bleach_clean pitch))

/-- The exceptions that can escape the `try` block of `validate_file`
(`validators.py` lines 42–45): `magic.from_buffer` itself failing, the
`AttributeError` from the non-existent `settings.allowed_file_types`
attribute, and the `ValidationError` raised for a disallowed MIME type.
All are subclasses of `Exception`, so all are caught by line 46. -/
inductive TryExn where
  | sniffError (msg : String)
  | attributeError
  | validationError (msg : String)
deriving Repr, DecidableEq

/-- The fallback extension check of `validators.py` line 49:
`filename.lower().endswith(('.pdf', '.txt'))`. -/
def hasAllowedExt (filename : List Char) : Bool :=
  pyEndsWith (pyLower filename) ".pdf".data ||
    pyEndsWith (pyLower filename) ".txt".data

/-- Embedding of `InputValidator.validate_file` (`validators.py` lines 32–50).
`sniff` is the behaviour of `magic.from_buffer(file_content, mime=True)`:
`.ok mime` when sniffing returns a MIME string, `.error` when it raises.
The `Settings` object of `config.py` defines `allowed_file_type`; the
attribute `allowed_file_types` read at line 44 does not exist, so that
access raises `AttributeError` whenever sniffing succeeded, before the
membership test can run; the membership test and its `ValidationError` are
dead code.  Whichever exception occurs inside the `try` block — sniff
failure, the `AttributeError`, or a `ValidationError` for a disallowed
type — is caught by `except Exception` (line 46) and control falls through
to the extension check. -/
def validate_file (s : Settings) (sniff : Except String String)
    (file_content : List UInt8) (filename : List Char) :
    Except String Unit :=
  if file_content = [] then .error "File is empty"
  else if s.max_file_size < file_content.length then .error "File too large"
  else
    let tryBlock : Except TryExn Unit :=
      match sniff with
      | .error e => .error (.sniffError e)
      | .ok _file_type => .error .attributeError
    match tryBlock with
    | .ok _ => .ok ()
    | .error _ =>
      if hasAllowedExt filename then .ok ()
      else .error "Only PDF and TXT files are allowed"

/-- Counterfactual variant of `validate_file` in which the attribute access
resolves to the configured `allowed_file_type` list, so the MIME membership
test of line 44 actually runs.  Even then, the `ValidationError` raised for a
disallowed MIME type is an `Exception`, so it is caught at line 46 and the
extension fallback decides instead. -/
def validate_file_fixedAttr (s : Settings) (sniff : Except String String)
    (file_content : List UInt8) (filename : List Char) :
    Except String Unit :=
  if file_content = [] then .error "File is empty"
  else if s.max_file_size < file_content.length then .error "File too large"
  else
    let tryBlock : Except TryExn Unit :=
      match sniff with
      | .error e => .error (.sniffError e)
      | .ok file_type =>
        if file_type ∈ s.allowed_file_type then .ok ()
        else .error (.validationError "File type not allowed")
    match tryBlock with
    | .ok _ => .ok ()
    | .error _ =>
      if hasAllowedExt filename then .ok ()
      else .error "Only PDF and TXT files are allowed"

/-! ## `src/api/pdf_util.py` — `PDFProcessor.extract_text_from_pdf` -/

/-- Outcome of extracting one page's text: the library call may raise
(`.error`, caught per page and logged) or return the page text. -/
def PageResult := Except String (List Char)

/-- A `PyPDF2.PdfReader` object: its `is_encrypted` flag and its pages. -/
structure PyPDF2Doc where
  is_encrypted : Bool
  pages : List PageResult

/-- Behaviour of the three PDF libraries on one concrete input file:
constructing the reader/document may raise (`.error`), or yield the pages.
`pdf_util.py` consults them in this order. -/
structure PdfBehavior where
  pypdf2 : Except String PyPDF2Doc
  pymupdf : Except String (List PageResult)
  pdfplumber_ : Except String (List PageResult)

/-- The per-strategy page loop shared by all three strategies
(`pdf_util.py` lines 25–35, 49–61, 73–83): per-page failures are skipped
(logged), a page text is kept when `page_text and page_text.strip()` is
truthy, the kept texts are joined with `"\n"`, and the result is stripped. -/
def strategyText (pages : List PageResult) : List Char :=
  pyStrip (List.intercalate ['\n']
    (pages.filterMap fun pr =>
      match pr with
      | .error _ => none
      | .ok t => if t ≠ [] ∧ pyStrip t ≠ [] then some t else none))

/-- The acceptance test `if text and len(text) > 50` applied to a strategy's
joined, stripped text (`pdf_util.py` lines 36, 62, 84). -/
def acceptText (t : List Char) : Option (List Char) :=
  if t ≠ [] ∧ 50 < t.length then some t else none

/-- Strategy 1 (PyPDF2, `pdf_util.py` lines 18–41): `some text` when the
strategy returns from the function, `none` when control falls through to
strategy 2.  The `raise PDFProcessingError` for an encrypted PDF (line 23)
happens inside the `try` of line 18, and `PDFProcessingError` is an
`Exception`, so the blanket `except Exception` of line 40 catches it and
control falls through — the encrypted case yields `none` here. -/
def strategy1 (b : PdfBehavior) : Option (List Char) :=
  match b.pypdf2 with
  | .error _ => none
  | .ok doc =>
    if doc.is_encrypted then none
    else acceptText (strategyText doc.pages)

/-- Strategy 2 (PyMuPDF, `pdf_util.py` lines 45–67). -/
def strategy2 (b : PdfBehavior) : Option (List Char) :=
  match b.pymupdf with
  | .error _ => none
  | .ok pages => acceptText (strategyText pages)

/-- Strategy 3 (pdfplumber, `pdf_util.py` lines 70–89). -/
def strategy3 (b : PdfBehavior) : Option (List Char) :=
  match b.pdfplumber_ with
  | .error _ => none
  | .ok pages => acceptText (strategyText pages)

/-- Embedding of `PDFProcessor.extract_text_from_pdf` (`pdf_util.py` lines 12–95):
try the three strategies in order, return the first accepted text, and raise
`PDFProcessingError` (`.error`) when all three fall through (lines 92–95). -/
def extract_text_from_pdf (b : PdfBehavior) : Except String (List Char) :=
  match strategy1 b with
  | some t => .ok t
  | none =>
    match strategy2 b with
    | some t => .ok t
    | none =>
      match strategy3 b with
      | some t => .ok t
      | none =>
        .error "Could not extract text from PDF using any available method"

/-! ## `src/api/pitch_analyzer.py` — `PitchAnalyzer._calculate_content_stats` -/

/-- Python `round(x, ndigits)` on an exact rational value: scale by
`10 ^ ndigits`, round half to even, scale back. -/
def py_round (q : ℚ) (ndigits : Nat) : ℚ :=
  let m : ℚ := q * (10 : ℚ) ^ ndigits
  let f : ℤ := ⌊m⌋
  let frac : ℚ := m - (f : ℚ)
  let r : ℤ :=
    if frac < 1 / 2 then f
    else if 1 / 2 < frac then f + 1
    else if f % 2 = 0 then f else f + 1
  (r : ℚ) / (10 : ℚ) ^ ndigits

/-- The dictionary returned by `_calculate_content_stats`. -/
structure ContentStats where
  word_count : Nat
  sentence_count : Nat
  paragraph_count : Nat
  character_count : Nat
  average_words_per_sentence : ℚ
  reading_time_minutes : ℚ
deriving Repr, DecidableEq

/-- Embedding of `PitchAnalyzer._calculate_content_stats` (`pitch_analyzer.py` lines
64–78): word count via `content.split()`, sentence count as the non-blank
fields of `content.split('.')`, paragraph count as the non-blank fields of
`content.split('\n\n')`, character count, and the two rounded derived
values. -/
def calculate_content_stats (content : List Char) : ContentStats :=
  let words := (pySplitWs content).length
  let sentences :=
    ((pySplitOn '.' content).filter fun s => pyStrip s ≠ []).length
  let paragraphs :=
    ((pySplitSeq ['\n', '\n'] content).filter fun p => pyStrip p ≠ []).length
  { word_count := words
    sentence_count := sentences
    paragraph_count := paragraphs
    character_count := content.length
    average_words_per_sentence := py_round ((words : ℚ) / (max sentences 1 : Nat)) 2
    reading_time_minutes := py_round ((words : ℚ) / 200) 1 }

/-! ## `src/api/investor_service.py` -/

/-- Embedding of `bson.ObjectId.is_valid` on a string: exactly the 24-character hex
strings are valid. -/
def isValidObjectId (s : String) : Bool :=
  s.length = 24 && s.data.all fun c =>
    c.isDigit || ('a' ≤ c && c ≤ 'f') || ('A' ≤ c && c ≤ 'F')

/-- A stored MongoDB document (sans `_id`): an association list from field
names to values, insertion-ordered as MongoDB keeps it. -/
def MDoc := List (String × String)

instance : DecidableEq MDoc := by unfold MDoc; infer_instance

/-- The `investors` collection: documents keyed by their `_id` hex string. -/
def MCollection := List (String × MDoc)

instance : DecidableEq MCollection := by unfold MCollection; infer_instance

/-- Set field `k` to `v` in a document: replace the first binding of `k`
in place, or append a new binding (MongoDB `$set` on one field). -/
def setField (d : MDoc) (k v : String) : MDoc :=
  match d with
  | [] => [(k, v)]
  | (k', v') :: rest =>
    if k' = k then (k, v) :: rest else (k', v') :: setField rest k v

/-- MongoDB `$set` with an update document: set each field in order. -/
def applySet (d : MDoc) (upd : List (String × String)) : MDoc :=
  upd.foldl (fun acc kv => setField acc kv.1 kv.2) d

/-- Read a field of a document (first binding wins, as in `find?`). -/
def getField (d : MDoc) (k : String) : Option String :=
  match d with
  | [] => none
  | (k', v) :: rest => if k' = k then some v else getField rest k

/-- Python dict assignment `data[k] = v` on an insertion-ordered dict
represented as an association list of optional (possibly `None`) values. -/
def dictSet (data : List (String × Option String)) (k : String)
    (v : Option String) : List (String × Option String) :=
  match data with
  | [] => [(k, v)]
  | (k', v') :: rest =>
    if k' = k then (k, v) :: rest else (k', v') :: dictSet rest k v

/-- Python dict comprehension dropping the `None`-valued fields
(`investor_service.py` line 194). -/
def dropNone : List (String × Option String) → List (String × String)
  | [] => []
  | (_, none) :: rest => dropNone rest
  | (k, some v) :: rest => (k, v) :: dropNone rest

/-- MongoDB `find_one` by id on the embedded collection. -/
def lookupCol (col : MCollection) (id : String) : Option MDoc :=
  match col with
  | [] => none
  | (id', d) :: rest => if id' = id then some d else lookupCol rest id

/-- Replace the document stored under `id`. -/
def replaceCol (col : MCollection) (id : String) (d : MDoc) : MCollection :=
  col.map fun e => if e.1 = id then (id, d) else e

/-- MongoDB `delete_one` by id: remove the first document with this id. -/
def removeCol (col : MCollection) (id : String) : MCollection :=
  match col with
  | [] => []
  | e :: rest => if e.1 = id then rest else e :: removeCol rest id

/-- Embedding of `InvestorService.get_investor_by_id` (`investor_service.py` lines
154–178).  `dbErr = some e` means the `find_one` call raises exception `e`.
The result's first component has type `Except`, so that a propagated
exception *could* be expressed as `.error`; the function body never
produces one because every exception inside the `try` is caught at line 175
and converted to `return None`.  The second component records whether the
database was consulted at all (the invalid-id early return of lines 160–162
happens before any collection access).  Conversion of the document into an
`InvestorResponse` (lines 166–173) is identity on the embedded document. -/
def get_investor_by_id (col : MCollection) (dbErr : Option String)
    (investor_id : String) : Except String (Option MDoc) × Bool :=
  if ¬ isValidObjectId investor_id then (.ok none, false)
  else
    match dbErr with
    | some _ => (.ok none, true)
    | none => (.ok (lookupCol col investor_id), true)

/-- Embedding of `InvestorService.update_investor` (`investor_service.py` lines 180–211).
`now` is the value of `datetime.utcnow()` at line 191.  The update document
is `update_data` with `updated_at` stamped and the `None`-valued fields
dropped (lines 191–194).  `modified_count > 0` (line 201) holds exactly when
the matched document's content changed.  All exceptions inside the `try`
(including a raising `update_one`, `dbErr = some e`) are caught at line 209
and converted to `return False`. -/
def update_investor (col : MCollection) (dbErr : Option String)
    (now : String) (investor_id : String)
    (update_data : List (String × Option String)) :
    Except String Bool × MCollection × Bool :=
  if ¬ isValidObjectId investor_id then (.ok false, col, false)
  else
    let data := dropNone (dictSet update_data "updated_at" (some now))
    match dbErr with
    | some _ => (.ok false, col, true)
    | none =>
      match lookupCol col investor_id with
      | none => (.ok false, col, true)
      | some doc =>
        let doc' := applySet doc data
        (.ok (doc' ≠ doc), replaceCol col investor_id doc', true)

/-- Embedding of `InvestorService.delete_investor` (`investor_service.py` lines 213–235).
`deleted_count > 0` holds exactly when a document with this id was stored.
All exceptions inside the `try` (including a raising `delete_one`,
`dbErr = some e`) are caught at line 233 and converted to `return False`. -/
def delete_investor (col : MCollection) (dbErr : Option String)
    (investor_id : String) : Except String Bool × MCollection × Bool :=
  if ¬ isValidObjectId investor_id then (.ok false, col, false)
  else
    match dbErr with
    | some _ => (.ok false, col, true)
    | none =>
      (.ok ((lookupCol col investor_id).isSome), removeCol col investor_id,
        true)

/-- The pagination metadata block of `InvestorService.get_investors`
(`investor_service.py` lines 110–148): the database query, sorting and
per-document response conversion are abstracted away; `total_count` is the
result of `count_documents` and `page`, `page_size` the int parameters. -/
structure PageMeta where
  total_pages : ℤ
  skip : ℤ
  has_next : Bool
  has_prev : Bool
deriving Repr, DecidableEq

/-- Lines 114–115 and 146–147 of `investor_service.py`:
`total_pages = math.ceil(total_count / page_size) if page_size > 0 else 1`,
`skip = (page - 1) * page_size`, `has_next = page < total_pages`,
`has_prev = page > 1`. -/
def get_investors_pagination (total_count : Nat) (page page_size : ℤ) :
    PageMeta :=
  let total_pages : ℤ :=
    if 0 < page_size then ⌈(total_count : ℚ) / (page_size : ℚ)⌉ else 1
  { total_pages := total_pages
    skip := (page - 1) * page_size
    has_next := page < total_pages
    has_prev := 1 < page }

/-- The value assigned to `k` by the *last* binding of `k` in an update
document, which is the binding `$set` leaves in effect. -/
def lastVal : List (String × String) → String → Option String
  | [], _ => none
  | kv :: rest, k =>
    match lastVal rest k with
    | some v => some v
    | none => if kv.1 = k then some kv.2 else none

/-- The entity tails that may legitimately follow a `&` in escaped output:
every `&` produced by `html_escape` starts one of these. -/
def entTails : List (List Char) :=
  ["amp;".data, "lt;".data, "gt;".data, "quot;".data, "#x27;".data]

/-- Predicate: `ampEscaped out = true` states that every `&` occurring in `out` is the
start of an escape entity (`&amp;`, `&lt;`, `&gt;`, `&quot;`, `&#x27;`),
i.e. no `&` is a raw unescaped ampersand. -/
def ampEscaped : List Char → Bool
  | [] => true
  | c :: rest =>
    if c = '&' then (entTails.any fun e => e.isPrefixOf rest) && ampEscaped rest
    else ampEscaped rest


/-! ## Concrete example inputs -/

/-- A 98-character pitch: 90 letters followed by markup. -/
def exC4 : List Char := List.replicate 90 'a' ++ "<b>&</b>".data

/-- A 92-character pitch that is mostly one long tag: after sanitization only
`hello` remains. -/
def exShortC10 : List Char :=
  '<' :: (List.replicate 85 'a' ++ ('>' :: "hello".data))

/-- A 10001-character pitch of raw ampersands: after double escaping each
becomes the 9 characters of `&amp;amp;`. -/
def exLongC10 : List Char := List.replicate 10001 '&'

/-- One 20-word sentence (19 words `a`, then `a.`, then a space). -/
def exStatsSentence : List Char :=
  "a a a a a a a a a a a a a a a a a a a a. ".data

/-- A 200-word, 10-sentence input for the content-statistics example. -/
def exStats : List Char := (List.replicate 10 exStatsSentence).flatten

/-- A syntactically valid MongoDB ObjectId hex string. -/
def exObjectId : String := "507f1f77bcf86cd799439011"

/-- An example stored investor document. -/
def exDoc : MDoc :=
  [("Investor_name", "Acme"), ("Website", "old"), ("updated_at", "t0")]

/-- An example collection holding `exDoc` under `exObjectId`. -/
def exCol : MCollection := [(exObjectId, exDoc)]

/-- The update of the specification example:
`{Investor_name: null, Website: "x"}`. -/
def exUpd : List (String × Option String) :=
  [("Investor_name", none), ("Website", some "x")]

/-- 60 characters of extractable text, above the 50-character threshold. -/
def exLongText : List Char := List.replicate 60 'x'

/-- An encrypted PDF (PyPDF2 reports `is_encrypted`) whose text PyMuPDF can
nevertheless extract. -/
def exEncryptedPdf : PdfBehavior :=
  { pypdf2 := .ok { is_encrypted := true, pages := [.ok exLongText] }
    pymupdf := .ok [.ok exLongText]
    pdfplumber_ := .ok [] }

/-- An encrypted PDF on which the two fallback libraries also fail. -/
def exEncryptedPdfAllFail : PdfBehavior :=
  { pypdf2 := .ok { is_encrypted := true, pages := [.ok exLongText] }
    pymupdf := .error "cannot open"
    pdfplumber_ := .error "cannot open" }

/-- A healthy, non-encrypted, single-page PDF. -/
def exPlainPdf : PdfBehavior :=
  { pypdf2 := .ok { is_encrypted := false, pages := [.ok exLongText] }
    pymupdf := .error "unused"
    pdfplumber_ := .error "unused" }

/-- Two bytes of file content (non-empty, far below the size limit). -/
def exFileBytes : List UInt8 := [104, 105]

/-! ## Helper lemmas -/

/-- Whether an `Except` result is a propagated exception. -/
def exceptIsError {ε α : Type} : Except ε α → Bool
  | .error _ => true
  | .ok _ => false


theorem getField_setField (d : MDoc) (k v k' : String) :
    getField (setField d k v) k' = if k' = k then some v else getField d k' := by
  induction d with
  | nil =>
    by_cases h : k' = k
    · subst h; simp [setField, getField]
    · simp [setField, getField, h, Ne.symm h]
  | cons kv rest ih =>
    obtain ⟨k₀, v₀⟩ := kv
    by_cases h₀ : k₀ = k
    · subst h₀
      by_cases h : k' = k₀
      · subst h; simp [setField, getField]
      · simp [setField, getField, h, Ne.symm h]
    · by_cases h : k' = k
      · subst h
        simp [setField, getField, h₀, Ne.symm h₀, ih]
      · by_cases h₂ : k₀ = k'
        · subst h₂; simp [setField, getField, h₀, h, ih]
        · simp [setField, getField, h₀, h, h₂, ih]


theorem getField_applySet (upd : List (String × String)) (d : MDoc)
    (k : String) :
    getField (applySet d upd) k =
      match lastVal upd k with
      | some v => some v
      | none => getField d k := by
  induction upd generalizing d with
  | nil => simp [applySet, lastVal]
  | cons kv rest ih =>
    have hstep : applySet d (kv :: rest) = applySet (setField d kv.1 kv.2) rest := by
      simp [applySet]
    rw [hstep, ih]
    cases h : lastVal rest k with
    | some v => simp [lastVal, h]
    | none =>
      by_cases hk : kv.1 = k
      · subst hk; simp [lastVal, h, getField_setField]
      · simp [lastVal, h, hk, getField_setField, Ne.symm hk]

theorem lastVal_eq_none (upd : List (String × String)) (k : String)
    (h : k ∉ upd.map Prod.fst) : lastVal upd k = none := by
  induction upd with
  | nil => rfl
  | cons kv rest ih =>
    simp only [List.map_cons, List.mem_cons] at h
    push_neg at h
    have h₁ : kv.1 ≠ k := fun hk => h.1 hk.symm
    simp [lastVal, ih h.2, h₁]

theorem mem_keys_dropNone (data : List (String × Option String)) (k : String)
    (h : k ∈ (dropNone data).map Prod.fst) :
    ∃ v, (k, some v) ∈ data := by
  induction data with
  | nil => simp [dropNone] at h
  | cons kv rest ih =>
    obtain ⟨k₀, v₀⟩ := kv
    cases v₀ with
    | none =>
      rw [show dropNone ((k₀, none) :: rest) = dropNone rest from rfl] at h
      obtain ⟨v, hv⟩ := ih h
      exact ⟨v, List.mem_cons_of_mem _ hv⟩
    | some w =>
      rw [show dropNone ((k₀, some w) :: rest) = (k₀, w) :: dropNone rest
        from rfl] at h
      rcases List.mem_cons.mp h with h | h
      · exact ⟨w, by simp [h]⟩
      · obtain ⟨v, hv⟩ := ih h
        exact ⟨v, List.mem_cons_of_mem _ hv⟩

theorem mem_dictSet (data : List (String × Option String))
    (k₀ : String) (v₀ : Option String) (k : String) (v : Option String)
    (h : (k, v) ∈ dictSet data k₀ v₀) :
    (k, v) ∈ data ∨ (k = k₀ ∧ v = v₀) := by
  induction data with
  | nil =>
    right
    rcases List.mem_cons.mp h with h | h
    · exact ⟨congrArg Prod.fst h, congrArg Prod.snd h⟩
    · simp at h
  | cons kv rest ih =>
    obtain ⟨k₁, v₁⟩ := kv
    by_cases hk : k₁ = k₀
    · rw [show dictSet ((k₁, v₁) :: rest) k₀ v₀ =
        (k₀, v₀) :: rest by simp [dictSet, hk]] at h
      rcases List.mem_cons.mp h with h | h
      · exact .inr ⟨congrArg Prod.fst h, congrArg Prod.snd h⟩
      · exact .inl (List.mem_cons_of_mem _ h)
    · rw [show dictSet ((k₁, v₁) :: rest) k₀ v₀ =
        (k₁, v₁) :: dictSet rest k₀ v₀ by simp [dictSet, hk]] at h
      rcases List.mem_cons.mp h with h | h
      · exact .inl (by simp [h])
      · rcases ih h with h | h
        · exact .inl (List.mem_cons_of_mem _ h)
        · exact .inr h

theorem dropNone_dictSet_frame (data : List (String × Option String))
    (now k : String)
    (hnull : ∀ v, (k, v) ∈ data → v = none) (hk : k ≠ "updated_at") :
    k ∉ (dropNone (dictSet data "updated_at" (some now))).map Prod.fst := by
  intro hmem
  obtain ⟨v, hv⟩ := mem_keys_dropNone _ _ hmem
  rcases mem_dictSet _ _ _ _ _ hv with h | h
  · exact Option.noConfusion (hnull _ h)
  · exact hk h.1

theorem lastVal_dropNone_dictSet_self (data : List (String × Option String))
    (now : String)
    (hnodup : (data.map Prod.fst).Nodup) :
    lastVal (dropNone (dictSet data "updated_at" (some now))) "updated_at" =
      some now := by
  induction data with
  | nil => simp [dictSet, dropNone, lastVal]
  | cons kv rest ih =>
    obtain ⟨k₁, v₁⟩ := kv
    simp only [List.map_cons, List.nodup_cons] at hnodup
    by_cases hk : k₁ = "updated_at"
    · subst hk
      rw [show dictSet (("updated_at", v₁) :: rest) "updated_at" (some now) =
        ("updated_at", some now) :: rest by simp [dictSet]]
      rw [show dropNone (("updated_at", some now) :: rest) =
        ("updated_at", now) :: dropNone rest from rfl]
      have hnone : lastVal (dropNone rest) "updated_at" = none := by
        apply lastVal_eq_none
        intro hmem
        obtain ⟨v, hv⟩ := mem_keys_dropNone _ _ hmem
        exact hnodup.1 (List.mem_map.mpr ⟨("updated_at", some v), hv, rfl⟩)
      simp [lastVal, hnone]
    · rw [show dictSet ((k₁, v₁) :: rest) "updated_at" (some now) =
        (k₁, v₁) :: dictSet rest "updated_at" (some now) by simp [dictSet, hk]]
      cases v₁ with
      | none =>
        rw [show dropNone ((k₁, none) :: dictSet rest "updated_at" (some now)) =
          dropNone (dictSet rest "updated_at" (some now)) from rfl]
        exact ih hnodup.2
      | some w =>
        rw [show dropNone ((k₁, some w) :: dictSet rest "updated_at" (some now)) =
          (k₁, w) :: dropNone (dictSet rest "updated_at" (some now)) from rfl]
        simp [lastVal, ih hnodup.2]



theorem isPrefixOf_append_self (l t : List Char) :
    l.isPrefixOf (l ++ t) = true := by
  induction l with
  | nil => simp [List.isPrefixOf]
  | cons c rest ih => simp [List.isPrefixOf, ih]

theorem ampEscaped_cons_ne (c : Char) (rest : List Char) (h : ¬ c = '&') :
    ampEscaped (c :: rest) = ampEscaped rest := by
  simp [ampEscaped, h]

theorem ampEscaped_amp_cons (rest : List Char)
    (hpre : (entTails.any fun e => e.isPrefixOf rest) = true) :
    ampEscaped ('&' :: rest) = ampEscaped rest := by
  simp [ampEscaped, hpre]

theorem lt_not_mem_escChar (c : Char) : '<' ∉ escChar c := by
  unfold escChar
  split_ifs with h1 h2 h3 h4 h5
  · decide
  · decide
  · decide
  · decide
  · decide
  · simp
    exact fun h => h2 h.symm

theorem gt_not_mem_escChar (c : Char) : '>' ∉ escChar c := by
  unfold escChar
  split_ifs with h1 h2 h3 h4 h5
  · decide
  · decide
  · decide
  · decide
  · decide
  · simp
    exact fun h => h3 h.symm

theorem lt_not_mem_html_escape (l : List Char) : '<' ∉ html_escape l := by
  induction l with
  | nil => simp [html_escape]
  | cons c rest ih =>
    simp only [html_escape, List.mem_append]
    push_neg
    exact ⟨lt_not_mem_escChar c, ih⟩

theorem gt_not_mem_html_escape (l : List Char) : '>' ∉ html_escape l := by
  induction l with
  | nil => simp [html_escape]
  | cons c rest ih =>
    simp only [html_escape, List.mem_append]
    push_neg
    exact ⟨gt_not_mem_escChar c, ih⟩

theorem ampEscaped_escChar_append (c : Char) (tail : List Char) :
    ampEscaped (escChar c ++ tail) = ampEscaped tail := by
  unfold escChar
  split_ifs with h1 h2 h3 h4 h5
  · have hpre : (entTails.any fun e =>
        e.isPrefixOf ('a' :: 'm' :: 'p' :: ';' :: tail)) = true :=
      List.any_eq_true.mpr
        ⟨"amp;".data, by simp [entTails], isPrefixOf_append_self "amp;".data tail⟩
    rw [show ("&amp;".data ++ tail) = '&' :: ('a' :: 'm' :: 'p' :: ';' :: tail)
      from rfl]
    rw [ampEscaped_amp_cons _ hpre]
    rw [ampEscaped_cons_ne _ _ (by decide), ampEscaped_cons_ne _ _ (by decide),
      ampEscaped_cons_ne _ _ (by decide), ampEscaped_cons_ne _ _ (by decide)]
  · have hpre : (entTails.any fun e =>
        e.isPrefixOf ('l' :: 't' :: ';' :: tail)) = true :=
      List.any_eq_true.mpr
        ⟨"lt;".data, by simp [entTails], isPrefixOf_append_self "lt;".data tail⟩
    rw [show ("&lt;".data ++ tail) = '&' :: ('l' :: 't' :: ';' :: tail) from rfl]
    rw [ampEscaped_amp_cons _ hpre]
    rw [ampEscaped_cons_ne _ _ (by decide), ampEscaped_cons_ne _ _ (by decide),
      ampEscaped_cons_ne _ _ (by decide)]
  · have hpre : (entTails.any fun e =>
        e.isPrefixOf ('g' :: 't' :: ';' :: tail)) = true :=
      List.any_eq_true.mpr
        ⟨"gt;".data, by simp [entTails], isPrefixOf_append_self "gt;".data tail⟩
    rw [show ("&gt;".data ++ tail) = '&' :: ('g' :: 't' :: ';' :: tail) from rfl]
    rw [ampEscaped_amp_cons _ hpre]
    rw [ampEscaped_cons_ne _ _ (by decide), ampEscaped_cons_ne _ _ (by decide),
      ampEscaped_cons_ne _ _ (by decide)]
  · have hpre : (entTails.any fun e =>
        e.isPrefixOf ('q' :: 'u' :: 'o' :: 't' :: ';' :: tail)) = true :=
      List.any_eq_true.mpr
        ⟨"quot;".data, by simp [entTails],
          isPrefixOf_append_self "quot;".data tail⟩
    rw [show ("&quot;".data ++ tail) =
      '&' :: ('q' :: 'u' :: 'o' :: 't' :: ';' :: tail) from rfl]
    rw [ampEscaped_amp_cons _ hpre]
    rw [ampEscaped_cons_ne _ _ (by decide), ampEscaped_cons_ne _ _ (by decide),
      ampEscaped_cons_ne _ _ (by decide), ampEscaped_cons_ne _ _ (by decide),
      ampEscaped_cons_ne _ _ (by decide)]
  · have hpre : (entTails.any fun e =>
        e.isPrefixOf ('#' :: 'x' :: '2' :: '7' :: ';' :: tail)) = true :=
      List.any_eq_true.mpr
        ⟨"#x27;".data, by simp [entTails],
          isPrefixOf_append_self "#x27;".data tail⟩
    rw [show ("&#x27;".data ++ tail) =
      '&' :: ('#' :: 'x' :: '2' :: '7' :: ';' :: tail) from rfl]
    rw [ampEscaped_amp_cons _ hpre]
    rw [ampEscaped_cons_ne _ _ (by decide), ampEscaped_cons_ne _ _ (by decide),
      ampEscaped_cons_ne _ _ (by decide), ampEscaped_cons_ne _ _ (by decide),
      ampEscaped_cons_ne _ _ (by decide)]
  · rw [show ([c] ++ tail) = c :: tail from rfl, ampEscaped_cons_ne c tail h1]

theorem ampEscaped_html_escape (l : List Char) :
    ampEscaped (html_escape l) = true := by
  induction l with
  | nil => rfl
  | cons c rest ih =>
    rw [show html_escape (c :: rest) = escChar c ++ html_escape rest from rfl,
      ampEscaped_escChar_append, ih]

theorem html_escape_append (a b : List Char) :
    html_escape (a ++ b) = html_escape a ++ html_escape b := by
  induction a with
  | nil => rfl
  | cons c rest ih =>
    simp [html_escape, ih, List.append_assoc]

/-! ## Claim theorems -/

/-- C6: `get_investors` computes `total_pages = ceil(total_count / page_size)`
when `page_size > 0` and `1` otherwise, skip offset `(page - 1) * page_size`,
`has_next = (page < total_pages)`, `has_prev = (page > 1)`; for
`page=1, page_size=20, total_count=45` it returns `total_pages=3`,
`has_next=true`, `has_prev=false`, and for `page=3` it returns
`has_next=false`, `has_prev=true`. -/
theorem c6_get_investors_pagination (total_count : Nat) (page page_size : ℤ) :
    (get_investors_pagination total_count page page_size).total_pages =
      (if 0 < page_size then ⌈(total_count : ℚ) / (page_size : ℚ)⌉ else 1) ∧
    (get_investors_pagination total_count page page_size).skip =
      (page - 1) * page_size ∧
    (get_investors_pagination total_count page page_size).has_next =
      decide (page <
        (get_investors_pagination total_count page page_size).total_pages) ∧
    (get_investors_pagination total_count page page_size).has_prev =
      decide (1 < page) ∧
    (get_investors_pagination 45 1 20).total_pages = 3 ∧
    (get_investors_pagination 45 1 20).has_next = true ∧
    (get_investors_pagination 45 1 20).has_prev = false ∧
    (get_investors_pagination 45 3 20).has_next = false ∧
    (get_investors_pagination 45 3 20).has_prev = true := by
  refine ⟨rfl, rfl, rfl, rfl, ?_, ?_, ?_, ?_, ?_⟩ <;>
    · simp only [get_investors_pagination]
      norm_num [Int.lt_ceil, Int.ceil_le, Int.ceil_eq_iff]

set_option maxRecDepth 40000 in
/-- C8: `_calculate_content_stats` computes word count by whitespace split,
sentence count as the non-blank period-separated segments,
`average_words_per_sentence = round(words / max(sentences, 1), 2)` and
`reading_time_minutes = round(words / 200, 1)`; on a 200-word, 10-sentence input
it yields average 20.0 and reading time 1.0. -/
theorem c8_calculate_content_stats (content : List Char) :
    (calculate_content_stats content).word_count = (pySplitWs content).length ∧
    (calculate_content_stats content).sentence_count =
      ((pySplitOn '.' content).filter fun s => pyStrip s ≠ []).length ∧
    (calculate_content_stats content).average_words_per_sentence =
      py_round (((calculate_content_stats content).word_count : ℚ) /
        ((max (calculate_content_stats content).sentence_count 1 : Nat) : ℚ)) 2 ∧
    (calculate_content_stats content).reading_time_minutes =
      py_round (((calculate_content_stats content).word_count : ℚ) / 200) 1 ∧
    (calculate_content_stats exStats).word_count = 200 ∧
    (calculate_content_stats exStats).sentence_count = 10 ∧
    (calculate_content_stats exStats).average_words_per_sentence = 20 ∧
    (calculate_content_stats exStats).reading_time_minutes = 1 := by
  have hw : (pySplitWs exStats).length = 200 := by decide
  have hs : ((pySplitOn '.' exStats).filter fun s => pyStrip s ≠ []).length = 10 := by
    decide
  refine ⟨rfl, rfl, rfl, rfl, hw, hs, ?_, ?_⟩
  · show py_round
      (((pySplitWs exStats).length : ℚ) /
        ((max ((pySplitOn '.' exStats).filter fun s =>
          pyStrip s ≠ []).length 1 : Nat) : ℚ)) 2 = 20
    rw [hw, hs]
    unfold py_round
    norm_num
  · show py_round (((pySplitWs exStats).length : ℚ) / 200) 1 = 1
    rw [hw]
    unfold py_round
    norm_num

/-- C9: for every syntactically invalid ObjectId string, `get_investor_by_id`
returns `None`, `update_investor` and `delete_investor` return `False`; none
raises (`.ok` results throughout) and none touches the stored collection
(unchanged collection, `accessed = false`). -/
theorem c9_invalid_objectid_ops (col : MCollection) (dbErr : Option String)
    (now investor_id : String) (update_data : List (String × Option String))
    (h : isValidObjectId investor_id = false) :
    get_investor_by_id col dbErr investor_id = (.ok none, false) ∧
    update_investor col dbErr now investor_id update_data =
      (.ok false, col, false) ∧
    delete_investor col dbErr investor_id = (.ok false, col, false) := by
  refine ⟨?_, ?_, ?_⟩ <;>
    simp [get_investor_by_id, update_investor, delete_investor, h]

/-- Witness for C9 at the concrete invalid identifier `"zzz"`. -/
theorem c9_invalid_objectid_ops_witness :
    get_investor_by_id exCol none "zzz" = (.ok none, false) ∧
    update_investor exCol none "t1" "zzz" exUpd = (.ok false, exCol, false) ∧
    delete_investor exCol none "zzz" = (.ok false, exCol, false) :=
  c9_invalid_objectid_ops exCol none "t1" "zzz" exUpd (by decide)

/-- C5 is refuted: a backend failure (`dbErr = some e`) during `get_by_id`,
`update` or `delete` does *not* propagate to the caller — each function
catches it and returns the normal negative result (`.ok none` / `.ok false`),
at this concrete valid identifier. -/
theorem c5_counterexample :
    isValidObjectId exObjectId = true ∧
    (get_investor_by_id exCol (some "socket timeout") exObjectId).1 =
      .ok none ∧
    exceptIsError (get_investor_by_id exCol (some "socket timeout")
      exObjectId).1 = false ∧
    (update_investor exCol (some "socket timeout") "t1" exObjectId exUpd).1 =
      .ok false ∧
    exceptIsError (update_investor exCol (some "socket timeout") "t1"
      exObjectId exUpd).1 = false ∧
    (delete_investor exCol (some "socket timeout") exObjectId).1 = .ok false ∧
    exceptIsError (delete_investor exCol (some "socket timeout")
      exObjectId).1 = false :=
  ⟨by decide, rfl, rfl, rfl, rfl, rfl, rfl⟩

/-- C5 amended: an invalid or absent identifier yields a normal negative
result (`None`/`false`) rather than an exception, and unexpected backend
failures during `get_by_id`, `update`, and `delete` are likewise caught and
converted into the negative result (`None`/`false`) rather than propagated to
the caller. -/
theorem c5_backend_failures_swallowed (col : MCollection)
    (dbErr : Option String) (e now investor_id : String)
    (update_data : List (String × Option String)) :
    (get_investor_by_id col (some e) investor_id).1 = .ok none ∧
    (update_investor col (some e) now investor_id update_data).1 = .ok false ∧
    (delete_investor col (some e) investor_id).1 = .ok false ∧
    exceptIsError (get_investor_by_id col dbErr investor_id).1 = false ∧
    exceptIsError (update_investor col dbErr now investor_id
      update_data).1 = false ∧
    exceptIsError (delete_investor col dbErr investor_id).1 = false ∧
    (isValidObjectId investor_id = false →
      get_investor_by_id col dbErr investor_id = (.ok none, false) ∧
      update_investor col dbErr now investor_id update_data =
        (.ok false, col, false) ∧
      delete_investor col dbErr investor_id = (.ok false, col, false)) := by
  refine ⟨?_, ?_, ?_, ?_, ?_, ?_, ?_⟩
  · by_cases hv : isValidObjectId investor_id <;>
      simp [get_investor_by_id, hv]
  · by_cases hv : isValidObjectId investor_id <;>
      simp [update_investor, hv]
  · by_cases hv : isValidObjectId investor_id <;>
      simp [delete_investor, hv]
  · by_cases hv : isValidObjectId investor_id <;> cases dbErr <;>
      simp [get_investor_by_id, hv, exceptIsError]
  · by_cases hv : isValidObjectId investor_id <;> cases dbErr <;>
      · simp only [update_investor, hv]
        first
        | rfl
        | (cases lookupCol col investor_id <;> simp [exceptIsError])
  · by_cases hv : isValidObjectId investor_id <;> cases dbErr <;>
      simp [delete_investor, hv, exceptIsError]
  · intro hinv
    refine ⟨?_, ?_, ?_⟩ <;>
      simp [get_investor_by_id, update_investor, delete_investor, hinv]

/-- Witness for C5 (amended) at concrete inputs: a valid identifier with a
raising backend, and an invalid identifier. -/
theorem c5_backend_failures_swallowed_witness :
    (get_investor_by_id exCol (some "boom") exObjectId).1 = .ok none ∧
    get_investor_by_id exCol none "bad-id" = (.ok none, false) := by
  have h1 := c5_backend_failures_swallowed exCol (some "boom") "boom" "t1"
    exObjectId exUpd
  have h2 := c5_backend_failures_swallowed exCol none "err" "t1" "bad-id" exUpd
  exact ⟨h1.1, (h2.2.2.2.2.2.2 (by decide)).1⟩

/-- C7: `update_investor` always stamps a fresh `updated_at`, drops every
null-valued field from the update before applying it (those fields are left
unchanged in the stored record), and returns true exactly when the stored
record actually changed; the update document is a Python dict, so its keys
are assumed distinct. -/
theorem c7_update_investor_frame (col : MCollection) (now investor_id : String)
    (doc : MDoc) (update_data : List (String × Option String))
    (hv : isValidObjectId investor_id = true)
    (hdoc : lookupCol col investor_id = some doc)
    (hnodup : (update_data.map Prod.fst).Nodup) :
    update_investor col none now investor_id update_data =
      (.ok (decide (applySet doc
          (dropNone (dictSet update_data "updated_at" (some now))) ≠ doc)),
        replaceCol col investor_id (applySet doc
          (dropNone (dictSet update_data "updated_at" (some now)))),
        true) ∧
    getField (applySet doc
        (dropNone (dictSet update_data "updated_at" (some now))))
      "updated_at" = some now ∧
    (∀ k, (∀ v, (k, v) ∈ update_data → v = none) → k ≠ "updated_at" →
      getField (applySet doc
          (dropNone (dictSet update_data "updated_at" (some now)))) k =
        getField doc k) ∧
    ((update_investor col none now investor_id update_data).1 = .ok true ↔
      applySet doc (dropNone (dictSet update_data "updated_at" (some now))) ≠
        doc) := by
  refine ⟨?_, ?_, ?_, ?_⟩
  · simp [update_investor, hv, hdoc]
  · rw [getField_applySet,
      lastVal_dropNone_dictSet_self update_data now hnodup]
  · intro k hk hke
    rw [getField_applySet,
      lastVal_eq_none _ _ (dropNone_dictSet_frame update_data now k hk hke)]
  · simp [update_investor, hv, hdoc]

/-- Witness for C7 at the specification's example: updating with
`{Investor_name: null, Website: "x"}` modifies only `Website` (plus
`updated_at`) and returns true. -/
theorem c7_update_investor_frame_witness :
    update_investor exCol none "t1" exObjectId exUpd =
      (.ok true,
        [(exObjectId,
          [("Investor_name", "Acme"), ("Website", "x"), ("updated_at", "t1")])],
        true) ∧
    getField (applySet exDoc (dropNone (dictSet exUpd "updated_at"
      (some "t1")))) "updated_at" = some "t1" ∧
    getField (applySet exDoc (dropNone (dictSet exUpd "updated_at"
      (some "t1")))) "Website" = some "x" ∧
    getField (applySet exDoc (dropNone (dictSet exUpd "updated_at"
      (some "t1")))) "Investor_name" = getField exDoc "Investor_name" := by
  have h := c7_update_investor_frame exCol "t1" exObjectId exDoc exUpd
    (by decide) (by decide) (by decide)
  refine ⟨rfl, h.2.1, rfl, ?_⟩
  · refine h.2.2.1 "Investor_name" ?_ (by decide)
    intro v hv
    simp [exUpd] at hv
    exact hv

/-- Characterization of `validate_pitch_content` by the stripped input (the
emptiness test `not pitch or not pitch.strip()` is equivalent to the stripped
input being empty, since stripping the empty list yields the empty list). -/
theorem validate_pitch_content_eq (s : Settings) (pitch : List Char) :
    validate_pitch_content s pitch =
      if pyStrip pitch = [] then .error "Pitch content cannot be empty"
      else if (pyStrip pitch).length < s.min_pitch_length then
        .error "Pitch content too short"
      else if s.max_pitch_length < (pyStrip pitch).length then
        .error "Pitch content too long"
      else .ok (html_escape (bleach_clean (pyStrip pitch))) := by
  by_cases h : pyStrip pitch = []
  · have hp : pitch = [] ∨ pyStrip pitch = [] := .inr h
    simp [validate_pitch_content, hp, h]
  · have hnil : ¬ pitch = [] := fun hh => h (by simp [hh, pyStrip])
    simp [validate_pitch_content, hnil, h]

/-- C4: `validate_pitch_content` raises `ValidationError` exactly when the
text is empty or whitespace-only (stripped input empty), its stripped length
is below the configured minimum, or above the configured maximum; for every
other input it returns the sanitized text — tag-stripped and HTML-escaped —
which contains no `<` and no `>` at all (all tags removed) and in which every
remaining `&` starts an escape entity. -/
theorem c4_validate_pitch_content_spec (s : Settings) (pitch : List Char) :
    ((∃ e, validate_pitch_content s pitch = .error e) ↔
      (pyStrip pitch = [] ∨
        (pyStrip pitch).length < s.min_pitch_length ∨
        s.max_pitch_length < (pyStrip pitch).length)) ∧
    (∀ out, validate_pitch_content s pitch = .ok out →
      out = html_escape (bleach_clean (pyStrip pitch)) ∧
      '<' ∉ out ∧ '>' ∉ out ∧ ampEscaped out = true) := by
  have heq := validate_pitch_content_eq s pitch
  constructor
  · rw [heq]
    split_ifs with h1 h2 h3
    · exact ⟨fun _ => .inl h1, fun _ => ⟨_, rfl⟩⟩
    · exact ⟨fun _ => .inr (.inl h2), fun _ => ⟨_, rfl⟩⟩
    · exact ⟨fun _ => .inr (.inr h3), fun _ => ⟨_, rfl⟩⟩
    · constructor
      · rintro ⟨e, he⟩
        simp at he
      · rintro (h | h | h)
        exacts [absurd h h1, absurd h h2, absurd h h3]
  · intro out hout
    rw [heq] at hout
    split_ifs at hout with h1 h2 h3
    all_goals simp at hout
    subst hout
    exact ⟨rfl, lt_not_mem_html_escape _, gt_not_mem_html_escape _,
      ampEscaped_html_escape _⟩

/-- Witness for C4: a concrete 98-character pitch containing markup is
accepted and returns tag-free, fully escaped text. -/
theorem c4_validate_pitch_content_spec_witness :
    validate_pitch_content settings exC4 =
      .ok (html_escape (bleach_clean (pyStrip exC4))) ∧
    '<' ∉ html_escape (bleach_clean (pyStrip exC4)) ∧
    '>' ∉ html_escape (bleach_clean (pyStrip exC4)) ∧
    ampEscaped (html_escape (bleach_clean (pyStrip exC4))) = true := by
  have hok : validate_pitch_content settings exC4 =
      .ok (html_escape (bleach_clean (pyStrip exC4))) := rfl
  have h := (c4_validate_pitch_content_spec settings exC4).2 _ hok
  exact ⟨hok, h.2.1, h.2.2.1, h.2.2.2⟩

theorem dropWhile_replicate_of_neg {p : Char → Bool} {c : Char}
    (h : p c = false) (n : Nat) :
    List.dropWhile p (List.replicate n c) = List.replicate n c := by
  cases n with
  | zero => rfl
  | succ m => simp [List.replicate_succ, List.dropWhile, h]

theorem pyStrip_replicate_amp (n : Nat) :
    pyStrip (List.replicate n '&') = List.replicate n '&' := by
  unfold pyStrip
  rw [dropWhile_replicate_of_neg (by decide), List.reverse_replicate,
    dropWhile_replicate_of_neg (by decide), List.reverse_replicate]

theorem sanitized_replicate_amp_length : ∀ n f : Nat, n ≤ f →
    (html_escape (bleachCleanAux f (List.replicate n '&'))).length = 9 * n := by
  intro n
  induction n with
  | zero =>
    intro f _
    simp [bleachCleanAux, html_escape]
  | succ m ih =>
    intro f hf
    cases f with
    | zero => omega
    | succ f' =>
      rw [List.replicate_succ]
      rw [show bleachCleanAux (f' + 1) ('&' :: List.replicate m '&') =
        "&amp;".data ++ bleachCleanAux f' (List.replicate m '&') from rfl]
      rw [html_escape_append, List.length_append]
      rw [ih f' (by omega)]
      rw [show (html_escape "&amp;".data).length = 9 from rfl]
      omega

/-- C10: the length bounds in `validate_pitch_content` are checked against
the stripped raw input, not the returned value: the 92-character input
`exShortC10` (mostly one tag) is accepted yet its sanitized result is
shorter than the configured minimum, and the 10001-character input
`exLongC10` (raw ampersands, each double-escaped to the 9 characters of
`&amp;amp;`) is accepted yet its sanitized result is longer than the
configured maximum. -/
theorem c10_bounds_checked_before_sanitization :
    validate_pitch_content settings exShortC10 =
      .ok (html_escape (bleach_clean (pyStrip exShortC10))) ∧
    (html_escape (bleach_clean (pyStrip exShortC10))).length <
      settings.min_pitch_length ∧
    validate_pitch_content settings exLongC10 =
      .ok (html_escape (bleach_clean (pyStrip exLongC10))) ∧
    settings.max_pitch_length <
      (html_escape (bleach_clean (pyStrip exLongC10))).length := by
  have hstrip : pyStrip exLongC10 = exLongC10 := pyStrip_replicate_amp 10001
  have hlen : exLongC10.length = 10001 := by
    rw [show exLongC10 = List.replicate 10001 '&' from rfl,
      List.length_replicate]
  have hne : exLongC10 ≠ [] := by
    intro h
    rw [h] at hlen
    simp at hlen
  have hsan : (html_escape (bleach_clean (pyStrip exLongC10))).length =
      90009 := by
    rw [hstrip]
    rw [show bleach_clean exLongC10 =
      bleachCleanAux 10001 (List.replicate 10001 '&') by
        unfold bleach_clean
        rw [show exLongC10.length = 10001 from hlen]
        rfl]
    rw [sanitized_replicate_amp_length 10001 10001 le_rfl]
  refine ⟨rfl, by decide, ?_, ?_⟩
  · rw [validate_pitch_content_eq, hstrip, hlen]
    simp [settings, hne]
  · rw [hsan]
    norm_num [settings]

theorem acceptText_some_iff (t0 t : List Char) :
    acceptText t0 = some t ↔ t = t0 ∧ 50 < t0.length := by
  unfold acceptText
  by_cases hc : t0 ≠ [] ∧ 50 < t0.length
  · rw [if_pos hc]
    constructor
    · intro h
      exact ⟨(Option.some.inj h).symm, hc.2⟩
    · rintro ⟨rfl, _⟩
      rfl
  · rw [if_neg hc]
    constructor
    · intro h
      exact Option.noConfusion h
    · rintro ⟨rfl, hlen⟩
      exact absurd ⟨List.ne_nil_of_length_pos (by omega), hlen⟩ hc

theorem strategy1_some_length (b : PdfBehavior) (t : List Char)
    (h : strategy1 b = some t) : 50 < t.length := by
  unfold strategy1 at h
  split at h
  · exact Option.noConfusion h
  · split_ifs at h
    obtain ⟨rfl, hlen⟩ := (acceptText_some_iff _ _).mp h
    exact hlen

theorem strategy2_some_length (b : PdfBehavior) (t : List Char)
    (h : strategy2 b = some t) : 50 < t.length := by
  unfold strategy2 at h
  split at h
  · exact Option.noConfusion h
  · obtain ⟨rfl, hlen⟩ := (acceptText_some_iff _ _).mp h
    exact hlen

theorem strategy3_some_length (b : PdfBehavior) (t : List Char)
    (h : strategy3 b = some t) : 50 < t.length := by
  unfold strategy3 at h
  split at h
  · exact Option.noConfusion h
  · obtain ⟨rfl, hlen⟩ := (acceptText_some_iff _ _).mp h
    exact hlen

/-- C3: `extract_text_from_pdf` tries the three strategies in the fixed order
PyPDF2, PyMuPDF, pdfplumber, returning the first accepted result and raising
`PDFProcessingError` when none is accepted; a strategy's joined and trimmed
page text is accepted exactly when its length strictly exceeds 50; and every
returned text has length strictly greater than 50. -/
theorem c3_extract_text_strategy_order (b : PdfBehavior) :
    extract_text_from_pdf b =
      (match strategy1 b, strategy2 b, strategy3 b with
        | some t, _, _ => .ok t
        | none, some t, _ => .ok t
        | none, none, some t => .ok t
        | none, none, none =>
          .error "Could not extract text from PDF using any available method") ∧
    (∀ pages t, acceptText (strategyText pages) = some t ↔
      (t = strategyText pages ∧ 50 < (strategyText pages).length)) ∧
    (∀ t, extract_text_from_pdf b = .ok t → 50 < t.length) := by
  refine ⟨?_, fun pages t => acceptText_some_iff _ _, ?_⟩
  · unfold extract_text_from_pdf
    cases strategy1 b <;> cases strategy2 b <;> cases strategy3 b <;> rfl
  · intro t ht
    unfold extract_text_from_pdf at ht
    cases h1 : strategy1 b with
    | some t1 =>
      rw [h1] at ht
      obtain rfl := Except.ok.inj ht
      exact strategy1_some_length b t1 h1
    | none =>
      rw [h1] at ht
      cases h2 : strategy2 b with
      | some t2 =>
        rw [h2] at ht
        obtain rfl := Except.ok.inj ht
        exact strategy2_some_length b t2 h2
      | none =>
        rw [h2] at ht
        cases h3 : strategy3 b with
        | some t3 =>
          rw [h3] at ht
          obtain rfl := Except.ok.inj ht
          exact strategy3_some_length b t3 h3
        | none =>
          rw [h3] at ht
          exact Except.noConfusion ht

/-- Witness for C3: on a healthy single-page PDF the pipeline returns the
60-character page text via strategy 1, and that text exceeds the
50-character threshold. -/
theorem c3_extract_text_strategy_order_witness :
    extract_text_from_pdf exPlainPdf = .ok exLongText ∧
    50 < exLongText.length := by
  have h := (c3_extract_text_strategy_order exPlainPdf).2.2 exLongText rfl
  exact ⟨rfl, h⟩

/-- C1 concerns a code bug: for the encrypted PDF `exEncryptedPdf` the
`PDFProcessingError` raised at `pdf_util.py` line 23 is caught by the blanket
`except Exception` of line 40, so strategy 1 merely falls through (`none`)
instead of failing the call; strategy 2 (PyMuPDF) *is* attempted and its text
is returned.  When strategies 2 and 3 also fail, the error finally raised is
the generic all-methods message of lines 92–95, not the encryption message —
so extraction never "fails immediately after strategy 1 detects
encryption". -/
theorem c1_encrypted_pdf_not_rejected_immediately :
    strategy1 exEncryptedPdf = none ∧
    extract_text_from_pdf exEncryptedPdf = .ok exLongText ∧
    extract_text_from_pdf exEncryptedPdfAllFail =
      .error "Could not extract text from PDF using any available method" :=
  ⟨rfl, rfl, rfl⟩

/-- C2 concerns a code bug: the MIME allow-list is never enforced.  Sniffing
`exFileBytes` as `text/plain` — a type outside the configured allow-list —
does not raise: the attribute error from the misspelled
`settings.allowed_file_types` (the `Settings` field is `allowed_file_type`,
`config.py` line 14) is caught by `except Exception` and the extension
fallback accepts `notes.txt`.  Even with the attribute name fixed
(`validate_file_fixedAttr`), the `ValidationError` raised for the disallowed
type is itself caught by the same `except Exception` and the extension
fallback still accepts the file.  The extension fallback rejects only
filenames ending in neither `.pdf` nor `.txt`. -/
theorem c2_mime_allowlist_not_enforced :
    "text/plain" ∉ settings.allowed_file_type ∧
    validate_file settings (.ok "text/plain") exFileBytes
      "notes.txt".data = .ok () ∧
    validate_file_fixedAttr settings (.ok "text/plain") exFileBytes
      "notes.txt".data = .ok () ∧
    validate_file settings (.error "magic failed") exFileBytes
      "image.png".data = .error "Only PDF and TXT files are allowed" ∧
    validate_file settings (.error "magic failed") exFileBytes
      "notes.txt".data = .ok () :=
  ⟨by decide, rfl, rfl, rfl, rfl⟩
